import Mathlib

/-!
Verification development for the document-ingestion and multi-agent
analysis pipeline of the ai-dispro-app repository.  Python functions are
shallowly embedded as executable Lean definitions; remote collaborators
(LLM, blob store, database, case-management system) are passed in as
oracle functions so that control flow, retry behaviour and error
conversion can be verified for every collaborator behaviour.
-/

set_option maxHeartbeats 1000000

namespace Dispro

/-! ### Python dictionaries

A Python dict with string keys and string-like values is modelled as an
association list with unique keys kept in insertion order; `dset` mirrors
item assignment (replace in place, else append) and `dictUpdate` mirrors
`dict.update` (left operand mutated by every item of the right operand,
in order). -/

abbrev Dict := List (String × String)

def dget? (d : Dict) (k : String) : Option String :=
  match d with
  | [] => none
  | (k0, v0) :: rest => if k0 = k then some v0 else dget? rest k

def dset (d : Dict) (k v : String) : Dict :=
  match d with
  | [] => [(k, v)]
  | (k0, v0) :: rest => if k0 = k then (k0, v) :: rest else (k0, v0) :: dset rest k v

def dictUpdate (d e : Dict) : Dict :=
  e.foldl (fun acc kv => dset acc kv.1 kv.2) d

def dget?_dset (d : Dict) (k v k' : String) :
    dget? (dset d k v) k' = if k = k' then some v else dget? d k' := by
  induction d with
  | nil =>
    by_cases h : k = k' <;> simp [dset, dget?, h]
  | cons kv rest ih =>
    obtain ⟨k0, v0⟩ := kv
    by_cases h0 : k0 = k
    · subst h0
      by_cases h : k0 = k' <;> simp [dset, dget?, h]
    · by_cases h : k0 = k'
      · subst h
        have hk : ¬k = k0 := fun hh => h0 hh.symm
        simp [dset, dget?, h0, hk]
      · simp [dset, dget?, h0, h, ih]

def dget?_eq_none_of_not_mem (d : Dict) (k : String)
    (h : k ∉ d.map Prod.fst) : dget? d k = none := by
  induction d with
  | nil => rfl
  | cons kv rest ih =>
    obtain ⟨k0, v0⟩ := kv
    simp only [List.map_cons, List.mem_cons, not_or] at h
    have hk : ¬k0 = k := fun hh => h.1 hh.symm
    simp [dget?, hk, ih h.2]

def dget?_dictUpdate (d e : Dict) (k : String)
    (he : (e.map Prod.fst).Nodup) :
    dget? (dictUpdate d e) k = (dget? e k <|> dget? d k) := by
  induction e generalizing d with
  | nil => simp [dictUpdate, dget?]
  | cons kv rest ih =>
    obtain ⟨k0, v0⟩ := kv
    simp only [List.map_cons, List.nodup_cons] at he
    have step : dictUpdate d ((k0, v0) :: rest) = dictUpdate (dset d k0 v0) rest := by
      simp [dictUpdate]
    rw [step, ih _ he.2]
    by_cases h : k0 = k
    · subst h
      rw [dget?_eq_none_of_not_mem rest k0 he.1]
      simp [dget?, dget?_dset]
    · simp [dget?, h, dget?_dset]

/-! ### Multi-agent fan-in merge

Embedding of `LangGraphWorker._parse_results`: every reference produced by
the critic is merged, via Python dict update, with every result fragment
whose hash field equals the hash of that reference. -/

def mergeOneReference (results : List Dict) (reference : Dict) : Except String Dict :=
  match dget? reference "hash_id" with
  | none => .error "KeyError: hash_id"
  | some h =>
    .ok (results.foldl
      (fun ref res => if dget? res "hash_id" = some h then dictUpdate ref res else ref)
      reference)

def parse_results (references results : List Dict) : Except String (List Dict) :=
  references.mapM (mergeOneReference results)

/-- Value of key `k` in the last fragment of the list that carries `k`
(later fragments take precedence). -/
def lastVal (frags : List Dict) (k : String) : Option String :=
  match frags with
  | [] => none
  | f :: rest => (lastVal rest k <|> dget? f k)

def foldl_update_filter (results : List Dict) (p : Dict → Prop) [DecidablePred p] (r : Dict) :
    results.foldl (fun ref res => if p res then dictUpdate ref res else ref) r
      = (results.filter (fun res => decide (p res))).foldl dictUpdate r := by
  induction results generalizing r with
  | nil => rfl
  | cons f rest ih =>
    by_cases h : p f <;> simp [List.foldl, List.filter, h, ih]

def dget?_foldl_update (frags : List Dict) (r : Dict) (k : String)
    (h : ∀ f ∈ frags, (f.map Prod.fst).Nodup) :
    dget? (frags.foldl dictUpdate r) k = (lastVal frags k <|> dget? r k) := by
  induction frags generalizing r with
  | nil => simp [lastVal]
  | cons f rest ih =>
    have hf : (f.map Prod.fst).Nodup := h f (by simp)
    have hrest : ∀ g ∈ rest, (g.map Prod.fst).Nodup := fun g hg => h g (by simp [hg])
    simp only [List.foldl, lastVal]
    rw [ih (dictUpdate r f) hrest, dget?_dictUpdate r f k hf]
    cases lastVal rest k <;> simp

/-! ### Bounded retry (tenacity)

`withRetry n f` models a call wrapped in
`retry(stop=stop_after_attempt(n), wait=wait_fixed(1))`: attempt `i` has
outcome `f i`; on exhaustion tenacity raises RetryError carrying the last
attempt failure, modelled as returning that last underlying error.
`withRetryTrace` additionally reports the number of attempts made and the
list of inter-attempt waits performed (each of the fixed length 1). -/

def retryAux (f : Nat → Except ε α) : Nat → Nat → Except ε α
  | i, 0 => f i
  | i, n + 1 =>
    match f i with
    | .ok a => .ok a
    | .error _ => retryAux f (i + 1) n

def withRetry (n : Nat) (f : Nat → Except ε α) : Except ε α :=
  retryAux f 0 (n - 1)

def retryTraceAux (f : Nat → Except ε α) : Nat → Nat → Except ε α × Nat × List Nat
  | i, 0 => (f i, i + 1, List.replicate i 1)
  | i, n + 1 =>
    match f i with
    | .ok a => (.ok a, i + 1, List.replicate i 1)
    | .error _ => retryTraceAux f (i + 1) n

def withRetryTrace (n : Nat) (f : Nat → Except ε α) : Except ε α × Nat × List Nat :=
  retryTraceAux f 0 (n - 1)

/-! ### Defence and reviewer branch

Embedding of the `_defence` and `_reviewer` nodes of the multi-agent
graph: `_defence` is retried up to 3 times; `_reviewer` carries no retry
decorator and is invoked exactly once, and its emitted fragment carries
the defence fields alongside the reviewer fields. -/

structure DefenceResponse where
  argument : String
  verdict : String
  pattern : String

structure ReviewerResponse where
  final_verdict : String
  self_confidence_score : String
  reasoning : String

def defenceNode (oracle : Nat → Except String DefenceResponse) :
    Except String DefenceResponse :=
  withRetry 3 oracle

def reviewerNode (hash_id : String) (defence : DefenceResponse)
    (oracle : Nat → Except String ReviewerResponse) : Except String Dict := do
  let rv ← oracle 0
  pure [("hash_id", hash_id),
        ("defence_verdict", defence.verdict),
        ("defence_pattern", defence.pattern),
        ("defence_argument", defence.argument),
        ("reviewer_final_verdict", rv.final_verdict),
        ("reviewer_confidence_score", rv.self_confidence_score),
        ("reviewer_reasoning", rv.reasoning)]

def defenceReviewerBranch (hash_id : String)
    (defenceOracle : Nat → Except String DefenceResponse)
    (reviewerOracle : Nat → Except String ReviewerResponse) : Except String Dict := do
  let d ← defenceNode defenceOracle
  reviewerNode hash_id d reviewerOracle

/-! ### difflib SequenceMatcher

Embedding of `difflib.SequenceMatcher` as instantiated by
`is_valid_subset`: `isjunk=None` and `autojunk=False`, so the junk sets
are empty and no popular-element elimination happens.  `b2jList b c` is
the ascending list of positions of `c` in `b`.  `processRow` is the inner
loop of `find_longest_match` for one row `i`, threading the previous-row
length map `jOld`, the current-row map `jNew` and the best match so far;
`j < blo` is skipped, `bhi <= j` breaks. -/

def b2jList (b : List Char) (c : Char) : List Nat :=
  (List.range b.length).filter (fun j => b.get? j = some c)

def processRow (jOld : Nat → Nat) (blo bhi i : Nat) :
    List Nat → (Nat → Nat) → Nat × Nat × Nat → (Nat → Nat) × (Nat × Nat × Nat)
  | [], jNew, best => (jNew, best)
  | j :: js, jNew, best =>
    if j < blo then processRow jOld blo bhi i js jNew best
    else if bhi ≤ j then (jNew, best)
    else
      let k := (if j = 0 then 0 else jOld (j - 1)) + 1
      let jNew' := fun x => if x = j then k else jNew x
      let best' := if best.2.2 < k then (i + 1 - k, j + 1 - k, k) else best
      processRow jOld blo bhi i js jNew' best'

/-- Outer loop of `find_longest_match` over the rows `range(alo, ahi)`,
passed as an explicit list. -/
def flmRows (a b : List Char) (blo bhi : Nat) :
    List Nat → (Nat → Nat) → Nat × Nat × Nat → Nat × Nat × Nat
  | [], _, best => best
  | i :: rows, j2l, best =>
    let pr := processRow j2l blo bhi i (b2jList b (a.getD i ' ')) (fun _ => 0) best
    flmRows a b blo bhi rows pr.1 pr.2

/-- First extension loop of `find_longest_match` (the junk sets are empty,
so the junk-extension loops never run and the non-junk guard is vacuous).
Structural recursion on `besti`, which decreases by one per step. -/
def extendLeft (a b : List Char) (alo blo : Nat) :
    Nat → Nat → Nat → Nat × Nat × Nat
  | 0, bestj, bestsize => (0, bestj, bestsize)
  | besti + 1, bestj, bestsize =>
    if alo < besti + 1 ∧ blo < bestj ∧ a.get? besti ≠ none ∧
        a.get? besti = b.get? (bestj - 1) then
      extendLeft a b alo blo besti (bestj - 1) (bestsize + 1)
    else (besti + 1, bestj, bestsize)

/-- Second extension loop; the fuel argument is `ahi - (besti + bestsize)`,
so running out of fuel is exactly the `besti+bestsize < ahi` guard. -/
def extendRightAux (a b : List Char) (bhi besti bestj : Nat) :
    Nat → Nat → Nat
  | 0, bestsize => bestsize
  | n + 1, bestsize =>
    if bestj + bestsize < bhi ∧ a.get? (besti + bestsize) ≠ none ∧
        a.get? (besti + bestsize) = b.get? (bestj + bestsize) then
      extendRightAux a b bhi besti bestj n (bestsize + 1)
    else bestsize

def find_longest_match (a b : List Char) (alo ahi blo bhi : Nat) : Nat × Nat × Nat :=
  let core := flmRows a b blo bhi (List.range' alo (ahi - alo)) (fun _ => 0) (alo, blo, 0)
  let left := extendLeft a b alo blo core.1 core.2.1 core.2.2
  (left.1, left.2.1,
    extendRightAux a b bhi left.1 left.2.1 (ahi - (left.1 + left.2.2)) left.2.2)

/-- Bounds satisfied by the match returned for the window
`[alo, ahi) x [blo, bhi)`; needed for termination of the block queue. -/
def flmBounds (alo blo ahi bhi : Nat) (m : Nat × Nat × Nat) : Prop :=
  alo ≤ m.1 ∧ blo ≤ m.2.1 ∧ m.1 + m.2.2 ≤ ahi ∧ m.2.1 + m.2.2 ≤ bhi

/-- Invariant of the length maps: every recorded length is the length of a
match that starts inside the window, hence is bounded by the distance to
the window start on both sides. -/
def j2lenInv (alo blo i : Nat) (f : Nat → Nat) : Prop :=
  ∀ j, f j = 0 ∨ (f j + alo ≤ i ∧ f j + blo ≤ j + 1)

def flmBounds_mk (alo blo ahi bhi x y z : Nat) :
    flmBounds alo blo ahi bhi (x, y, z) ↔
      (alo ≤ x ∧ blo ≤ y ∧ x + z ≤ ahi ∧ y + z ≤ bhi) :=
  Iff.rfl

def processRow_inv (jOld : Nat → Nat) (alo blo bhi i ahi : Nat)
    (js : List Nat) (jNew : Nat → Nat) (best : Nat × Nat × Nat)
    (hi : alo ≤ i) (hia : i < ahi)
    (hOld : j2lenInv alo blo i jOld)
    (hNew : j2lenInv alo blo (i + 1) jNew)
    (hbest : flmBounds alo blo ahi bhi best) :
    j2lenInv alo blo (i + 1) (processRow jOld blo bhi i js jNew best).1 ∧
      flmBounds alo blo ahi bhi (processRow jOld blo bhi i js jNew best).2 := by
  induction js generalizing jNew best with
  | nil => exact ⟨hNew, hbest⟩
  | cons j js ih =>
    by_cases h1 : j < blo
    · simpa [processRow, h1] using ih jNew best hNew hbest
    · by_cases h2 : bhi ≤ j
      · simpa [processRow, h1, h2] using ⟨hNew, hbest⟩
      · have hblo : blo ≤ j := Nat.le_of_not_lt h1
        have hjbhi : j < bhi := Nat.lt_of_not_le h2
        set k := (if j = 0 then 0 else jOld (j - 1)) + 1 with hk
        have hka : k + alo ≤ i + 1 := by
          by_cases hj0 : j = 0
          · have hk1 : k = 1 := by simp [hk, hj0]
            omega
          · rcases hOld (j - 1) with h | h
            · have hk1 : k = 1 := by simp [hk, hj0, h]
              omega
            · have hk1 : k = jOld (j - 1) + 1 := by simp [hk, hj0]
              omega
        have hkb : k + blo ≤ j + 1 := by
          by_cases hj0 : j = 0
          · have hk1 : k = 1 := by simp [hk, hj0]
            omega
          · rcases hOld (j - 1) with h | h
            · have hk1 : k = 1 := by simp [hk, hj0, h]
              omega
            · have hk1 : k = jOld (j - 1) + 1 := by simp [hk, hj0]
              omega
        have hNew' : j2lenInv alo blo (i + 1) (fun x => if x = j then k else jNew x) := by
          intro x
          by_cases hx : x = j
          · right
            have hxx : (fun x => if x = j then k else jNew x) x = k := by simp [hx]
            rw [hxx]
            omega
          · simpa [hx] using hNew x
        have hbest' : flmBounds alo blo ahi bhi
            (if best.2.2 < k then (i + 1 - k, j + 1 - k, k) else best) := by
          by_cases hlt : best.2.2 < k
          · simp only [if_pos hlt, flmBounds_mk]
            omega
          · simpa [hlt] using hbest
        simpa [processRow, h1, h2, ← hk] using
          ih (fun x => if x = j then k else jNew x)
            (if best.2.2 < k then (i + 1 - k, j + 1 - k, k) else best) hNew' hbest'

def flmRows_inv (a b : List Char) (alo blo ahi bhi : Nat) :
    ∀ (n i : Nat) (j2l : Nat → Nat) (best : Nat × Nat × Nat),
      alo ≤ i → i + n ≤ ahi → j2lenInv alo blo i j2l →
      flmBounds alo blo ahi bhi best →
      flmBounds alo blo ahi bhi
        (flmRows a b blo bhi (List.range' i n) j2l best) := by
  intro n
  induction n with
  | zero => intro i j2l best _ _ _ hbest; simpa [flmRows] using hbest
  | succ n ih =>
    intro i j2l best hi hn hinv hbest
    have step := processRow_inv j2l alo blo bhi i ahi
      (b2jList b (a.getD i ' ')) (fun _ => 0) best hi (by omega) hinv
      (fun _ => Or.inl rfl) hbest
    have : List.range' i (n + 1) = i :: List.range' (i + 1) n := by
      simp [List.range'_succ]
    rw [this]
    simp only [flmRows]
    exact ih (i + 1) _ _ (by omega) (by omega) step.1 step.2

def extendLeft_bounds (a b : List Char) (alo blo ahi bhi : Nat) :
    ∀ (besti bestj bestsize : Nat),
      flmBounds alo blo ahi bhi (besti, bestj, bestsize) →
      flmBounds alo blo ahi bhi (extendLeft a b alo blo besti bestj bestsize) := by
  intro besti
  induction besti with
  | zero => intro bestj bestsize h; simpa [extendLeft] using h
  | succ m ih =>
    intro bestj bestsize h
    rw [flmBounds_mk] at h
    by_cases hc : alo < m + 1 ∧ blo < bestj ∧ a.get? m ≠ none ∧
        a.get? m = b.get? (bestj - 1)
    · simp only [extendLeft, if_pos hc]
      apply ih
      rw [flmBounds_mk]
      omega
    · simp only [extendLeft, if_neg hc]
      rw [flmBounds_mk]
      omega

def extendRightAux_bounds (a b : List Char) (alo blo ahi bhi besti bestj : Nat) :
    ∀ (n bestsize : Nat),
      besti + bestsize + n ≤ ahi →
      flmBounds alo blo ahi bhi (besti, bestj, bestsize) →
      flmBounds alo blo ahi bhi
        (besti, bestj, extendRightAux a b bhi besti bestj n bestsize) := by
  intro n
  induction n with
  | zero => intro bestsize _ h; simpa [extendRightAux] using h
  | succ m ih =>
    intro bestsize hfuel h
    rw [flmBounds_mk] at h
    by_cases hc : bestj + bestsize < bhi ∧ a.get? (besti + bestsize) ≠ none ∧
        a.get? (besti + bestsize) = b.get? (bestj + bestsize)
    · simp only [extendRightAux, if_pos hc]
      apply ih (bestsize + 1) (by omega)
      rw [flmBounds_mk]
      omega
    · simp only [extendRightAux, if_neg hc]
      rw [flmBounds_mk]
      omega

def find_longest_match_bounds (a b : List Char) (alo ahi blo bhi : Nat)
    (ha : alo ≤ ahi) (hb : blo ≤ bhi) :
    flmBounds alo blo ahi bhi (find_longest_match a b alo ahi blo bhi) := by
  have hcore : flmBounds alo blo ahi bhi
      (flmRows a b blo bhi (List.range' alo (ahi - alo)) (fun _ => 0) (alo, blo, 0)) := by
    refine flmRows_inv a b alo blo ahi bhi (ahi - alo) alo (fun _ => 0) (alo, blo, 0)
      le_rfl (by omega) (fun _ => Or.inl rfl) ?_
    exact ⟨le_rfl, le_rfl, by simpa using ha, by simpa using hb⟩
  set core := flmRows a b blo bhi (List.range' alo (ahi - alo)) (fun _ => 0) (alo, blo, 0)
    with hcoredef
  have hleft : flmBounds alo blo ahi bhi
      (extendLeft a b alo blo core.1 core.2.1 core.2.2) := by
    apply extendLeft_bounds
    simpa using hcore
  set left := extendLeft a b alo blo core.1 core.2.1 core.2.2 with hleftdef
  have := extendRightAux_bounds a b alo blo ahi bhi left.1 left.2.1
    (ahi - (left.1 + left.2.2)) left.2.2 (by obtain ⟨_, _, h3, _⟩ := hleft; omega)
    (by simpa using hleft)
  simpa [find_longest_match, ← hcoredef, ← hleftdef] using this

/-! ### get_matching_blocks

The Python implementation keeps a LIFO queue of index windows.  Each
window is paired with the proof that it is well formed
(`alo <= ahi`, `blo <= bhi`), which the bounds of `find_longest_match`
propagate to the windows it pushes; termination follows because every
pushed window is strictly smaller than the popped one. -/

def IvlOk (q : Nat × Nat × Nat × Nat) : Prop :=
  q.1 ≤ q.2.1 ∧ q.2.2.1 ≤ q.2.2.2

abbrev Ivl := {q : Nat × Nat × Nat × Nat // IvlOk q}

def ivlSize (q : Nat × Nat × Nat × Nat) : Nat := 2 * (q.2.1 - q.1) + 1

def stackMeasure (stack : List Ivl) : Nat :=
  (stack.map (fun q => ivlSize q.1)).sum

def mbLoop (a b : List Char) :
    List Ivl → List (Nat × Nat × Nat) → List (Nat × Nat × Nat)
  | [], acc => acc
  | ⟨(alo, ahi, blo, bhi), hq⟩ :: rest, acc =>
    match hm : find_longest_match a b alo ahi blo bhi with
    | (i, j, k) =>
      if hk : k = 0 then
        mbLoop a b rest acc
      else
        -- Python pushes the left window first and the right window second;
        -- the next pop therefore takes the right window first, so the right
        -- window sits on top of the stack here.
        if h1 : alo < i ∧ blo < j then
          if h2 : i + k < ahi ∧ j + k < bhi then
            mbLoop a b
              (⟨(i + k, ahi, j + k, bhi), ⟨le_of_lt h2.1, le_of_lt h2.2⟩⟩ ::
                ⟨(alo, i, blo, j), ⟨le_of_lt h1.1, le_of_lt h1.2⟩⟩ :: rest)
              (acc ++ [(i, j, k)])
          else
            mbLoop a b
              (⟨(alo, i, blo, j), ⟨le_of_lt h1.1, le_of_lt h1.2⟩⟩ :: rest)
              (acc ++ [(i, j, k)])
        else
          if h2 : i + k < ahi ∧ j + k < bhi then
            mbLoop a b
              (⟨(i + k, ahi, j + k, bhi), ⟨le_of_lt h2.1, le_of_lt h2.2⟩⟩ :: rest)
              (acc ++ [(i, j, k)])
          else
            mbLoop a b rest (acc ++ [(i, j, k)])
termination_by stack _ => stackMeasure stack
decreasing_by
  all_goals
    simp only [stackMeasure, List.map_cons, List.sum_cons, ivlSize]
  · omega
  all_goals
    have hb := find_longest_match_bounds a b alo ahi blo bhi hq.1 hq.2
  all_goals
    rw [hm, flmBounds_mk] at hb
  all_goals
    omega

/-- Fuel-indexed variant of `mbLoop` that the kernel can evaluate by
structural recursion; `mbLoopF_eq` shows it agrees with `mbLoop` whenever
the fuel is at least the stack measure, so the fuel-out branch is never
reached from `get_matching_blocks`. -/
def mbLoopF (a b : List Char) : Nat → List Ivl → List (Nat × Nat × Nat) → List (Nat × Nat × Nat)
  | _, [], acc => acc
  | 0, _ :: _, acc => acc
  | fuel + 1, ⟨(alo, ahi, blo, bhi), _hq⟩ :: rest, acc =>
    match find_longest_match a b alo ahi blo bhi with
    | (i, j, k) =>
      if k = 0 then
        mbLoopF a b fuel rest acc
      else
        if h1 : alo < i ∧ blo < j then
          if h2 : i + k < ahi ∧ j + k < bhi then
            mbLoopF a b fuel
              (⟨(i + k, ahi, j + k, bhi), ⟨le_of_lt h2.1, le_of_lt h2.2⟩⟩ ::
                ⟨(alo, i, blo, j), ⟨le_of_lt h1.1, le_of_lt h1.2⟩⟩ :: rest)
              (acc ++ [(i, j, k)])
          else
            mbLoopF a b fuel
              (⟨(alo, i, blo, j), ⟨le_of_lt h1.1, le_of_lt h1.2⟩⟩ :: rest)
              (acc ++ [(i, j, k)])
        else
          if h2 : i + k < ahi ∧ j + k < bhi then
            mbLoopF a b fuel
              (⟨(i + k, ahi, j + k, bhi), ⟨le_of_lt h2.1, le_of_lt h2.2⟩⟩ :: rest)
              (acc ++ [(i, j, k)])
          else
            mbLoopF a b fuel rest (acc ++ [(i, j, k)])

def stackMeasure_cons (q : Ivl) (rest : List Ivl) :
    stackMeasure (q :: rest) = ivlSize q.1 + stackMeasure rest := by
  simp [stackMeasure]

def mbLoopF_eq (a b : List Char) :
    ∀ (fuel : Nat) (stack : List Ivl) (acc : List (Nat × Nat × Nat)),
      stackMeasure stack ≤ fuel →
      mbLoopF a b fuel stack acc = mbLoop a b stack acc := by
  intro fuel
  induction fuel with
  | zero =>
    intro stack acc hle
    cases stack with
    | nil => rw [mbLoopF, mbLoop]
    | cons q rest =>
      rw [stackMeasure_cons] at hle
      simp [ivlSize] at hle
  | succ fuel ih =>
    intro stack acc hle
    cases stack with
    | nil => rw [mbLoopF, mbLoop]
    | cons q rest =>
      obtain ⟨⟨alo, ahi, blo, bhi⟩, hq⟩ := q
      rw [stackMeasure_cons] at hle
      have hb := find_longest_match_bounds a b alo ahi blo bhi hq.1 hq.2
      rcases hm : find_longest_match a b alo ahi blo bhi with ⟨i, j, k⟩
      rw [hm, flmBounds_mk] at hb
      rw [mbLoopF, mbLoop]
      simp only [hm]
      by_cases hk : k = 0
      · simp only [dif_pos hk, if_pos hk]
        exact ih rest acc (by simp only [ivlSize] at hle; omega)
      · simp only [dif_neg hk, if_neg hk]
        by_cases h1 : alo < i ∧ blo < j
        · by_cases h2 : i + k < ahi ∧ j + k < bhi
          · simp only [dif_pos h1, dif_pos h2]
            apply ih
            rw [stackMeasure_cons, stackMeasure_cons]
            simp only [ivlSize] at hle ⊢
            omega
          · simp only [dif_pos h1, dif_neg h2]
            apply ih
            rw [stackMeasure_cons]
            simp only [ivlSize] at hle ⊢
            omega
        · by_cases h2 : i + k < ahi ∧ j + k < bhi
          · simp only [dif_neg h1, dif_pos h2]
            apply ih
            rw [stackMeasure_cons]
            simp only [ivlSize] at hle ⊢
            omega
          · simp only [dif_neg h1, dif_neg h2]
            apply ih
            simp only [ivlSize] at hle
            omega

/-- Lexicographic order on match triples, as used by the Python
`matching_blocks.sort()` call. -/
def tripleLe (x y : Nat × Nat × Nat) : Bool :=
  decide (x.1 < y.1 ∨ (x.1 = y.1 ∧ (x.2.1 < y.2.1 ∨ (x.2.1 = y.2.1 ∧ x.2.2 ≤ y.2.2))))

def insertSorted (x : Nat × Nat × Nat) :
    List (Nat × Nat × Nat) → List (Nat × Nat × Nat)
  | [] => [x]
  | y :: ys => if tripleLe x y then x :: y :: ys else y :: insertSorted x ys

def sortBlocks (l : List (Nat × Nat × Nat)) : List (Nat × Nat × Nat) :=
  l.foldr insertSorted []

/-- Second phase of `get_matching_blocks`: adjacent blocks (in both
sequences) are collapsed into one block, the running block starting from
the sentinel value `(0, 0, 0)`. -/
def mergeAdjacent : Nat × Nat × Nat → List (Nat × Nat × Nat) → List (Nat × Nat × Nat)
  | (i1, j1, k1), [] => if k1 ≠ 0 then [(i1, j1, k1)] else []
  | (i1, j1, k1), (i2, j2, k2) :: rest =>
    if i1 + k1 = i2 ∧ j1 + k1 = j2 then
      mergeAdjacent (i1, j1, k1 + k2) rest
    else
      (if k1 ≠ 0 then [(i1, j1, k1)] else []) ++ mergeAdjacent (i2, j2, k2) rest

def get_matching_blocks (a b : List Char) : List (Nat × Nat × Nat) :=
  let la := a.length
  let lb := b.length
  let blocks := mbLoop a b [⟨(0, la, 0, lb), ⟨Nat.zero_le _, Nat.zero_le _⟩⟩] []
  mergeAdjacent (0, 0, 0) (sortBlocks blocks) ++ [(la, lb, 0)]

/-! ### is_valid_subset

Embedding of `src/ingestion/utils.py`.  Cleaning lowercases and strips
every character outside `[a-zA-Z0-9]`; the concatenation loop mirrors the
Python `while`/`for` pair, including the quirk that after a run of merges
the outer loop resumes at the index of the last merged block, so that
block is processed again as the start of a fresh span. -/

def BIGGEST_ALLOWED_GAP : Nat := 100

def SIMILARITY_THRESHOLD : ℚ := 9 / 10

def cleanChars (s : String) : List Char :=
  (s.data.map Char.toLower).filter (fun c => c.isAlpha || c.isDigit)

/-- Inner `for end_idx in range(curr_idx, len(match_blocks))` loop; the
fuel is the number of remaining indices.  State: next index, current
concatenated end, current value of the `curr_idx` variable. -/
def concatInner (mb : List (Nat × Nat × Nat)) : Nat → Nat → Nat → Nat → Nat × Nat
  | 0, _, cEnd, cIdx => (cEnd, cIdx)
  | fuel + 1, eIdx, cEnd, cIdx =>
    let nb := mb.getD eIdx (0, 0, 0)
    if nb.2.2 ≠ 0 ∧ nb.1 ≤ cEnd + BIGGEST_ALLOWED_GAP then
      concatInner mb fuel (eIdx + 1) (nb.1 + nb.2.2) eIdx
    else
      concatInner mb fuel (eIdx + 1) cEnd cIdx

def concatInner_cIdx_ge (mb : List (Nat × Nat × Nat)) :
    ∀ (fuel eIdx cEnd cIdx : Nat), cIdx ≤ eIdx →
      cIdx ≤ (concatInner mb fuel eIdx cEnd cIdx).2 := by
  intro fuel
  induction fuel with
  | zero => intro eIdx cEnd cIdx _; simp [concatInner]
  | succ n ih =>
    intro eIdx cEnd cIdx h
    by_cases hc : (mb.getD eIdx (0, 0, 0)).2.2 ≠ 0 ∧
        (mb.getD eIdx (0, 0, 0)).1 ≤ cEnd + BIGGEST_ALLOWED_GAP
    · simp only [concatInner, if_pos hc]
      exact le_trans h (ih (eIdx + 1) _ eIdx (by omega))
    · simp only [concatInner, if_neg hc]
      exact ih (eIdx + 1) cEnd cIdx (by omega)

/-- Outer `while curr_idx < len(match_blocks)` loop. -/
def concatOuter (mb : List (Nat × Nat × Nat)) (currIdx : Nat)
    (acc : List (Nat × Nat)) : List (Nat × Nat) :=
  if h : currIdx < mb.length then
    concatOuter mb
      (concatInner mb (mb.length - (currIdx + 1)) (currIdx + 1)
        ((mb.get ⟨currIdx, h⟩).1 + (mb.get ⟨currIdx, h⟩).2.2) (currIdx + 1)).2
      (acc ++ [((mb.get ⟨currIdx, h⟩).1,
        (concatInner mb (mb.length - (currIdx + 1)) (currIdx + 1)
          ((mb.get ⟨currIdx, h⟩).1 + (mb.get ⟨currIdx, h⟩).2.2) (currIdx + 1)).1)])
  else acc
termination_by mb.length - currIdx
decreasing_by
  have := concatInner_cIdx_ge mb (mb.length - (currIdx + 1)) (currIdx + 1)
    ((mb.get ⟨currIdx, h⟩).1 + (mb.get ⟨currIdx, h⟩).2.2) (currIdx + 1) le_rfl
  omega

/-- Fuel-indexed variant of `concatOuter`, agreeing with it whenever the
fuel is at least the number of remaining indices (`concatOuterF_eq`). -/
def concatOuterF (mb : List (Nat × Nat × Nat)) :
    Nat → Nat → List (Nat × Nat) → List (Nat × Nat)
  | 0, _, acc => acc
  | fuel + 1, currIdx, acc =>
    if h : currIdx < mb.length then
      concatOuterF mb fuel
        (concatInner mb (mb.length - (currIdx + 1)) (currIdx + 1)
          ((mb.get ⟨currIdx, h⟩).1 + (mb.get ⟨currIdx, h⟩).2.2) (currIdx + 1)).2
        (acc ++ [((mb.get ⟨currIdx, h⟩).1,
          (concatInner mb (mb.length - (currIdx + 1)) (currIdx + 1)
            ((mb.get ⟨currIdx, h⟩).1 + (mb.get ⟨currIdx, h⟩).2.2) (currIdx + 1)).1)])
    else acc

def concatOuterF_eq (mb : List (Nat × Nat × Nat)) :
    ∀ (fuel currIdx : Nat) (acc : List (Nat × Nat)),
      mb.length - currIdx ≤ fuel →
      concatOuterF mb fuel currIdx acc = concatOuter mb currIdx acc := by
  intro fuel
  induction fuel with
  | zero =>
    intro currIdx acc hle
    have hge : ¬ currIdx < mb.length := by omega
    rw [concatOuterF, concatOuter, dif_neg hge]
  | succ fuel ih =>
    intro currIdx acc hle
    rw [concatOuterF, concatOuter]
    by_cases h : currIdx < mb.length
    · simp only [dif_pos h]
      apply ih
      have := concatInner_cIdx_ge mb (mb.length - (currIdx + 1)) (currIdx + 1)
        ((mb.get ⟨currIdx, h⟩).1 + (mb.get ⟨currIdx, h⟩).2.2) (currIdx + 1) le_rfl
      omega
    · simp only [dif_neg h]

/-- Kernel-evaluable version of `get_matching_blocks`. -/
def get_matching_blocksF (a b : List Char) : List (Nat × Nat × Nat) :=
  mergeAdjacent (0, 0, 0)
    (sortBlocks (mbLoopF a b (2 * a.length + 1)
      [⟨(0, a.length, 0, b.length), ⟨Nat.zero_le _, Nat.zero_le _⟩⟩] [])) ++
    [(a.length, b.length, 0)]

def get_matching_blocks_eval (a b : List Char) :
    get_matching_blocks a b = get_matching_blocksF a b := by
  rw [get_matching_blocks, get_matching_blocksF,
    mbLoopF_eq a b (2 * a.length + 1) _ [] (by simp [stackMeasure, ivlSize])]

/-- Best concatenated-span ratio (real-valued in the source; modelled
over the rationals).  The span length is the distance from the start to
the end of the concatenated block in the cleaned source text. -/
def qmax (x y : ℚ) : ℚ := if x ≤ y then y else x

def best_ratio (text subset : String) : ℚ :=
  let text_clean := cleanChars text
  let subset_clean := cleanChars subset
  let match_blocks := get_matching_blocks text_clean subset_clean
  let concatenated_blocks := concatOuter match_blocks 0 []
  ((concatenated_blocks.map
    (fun s => ((s.2 - s.1 : Nat) : ℚ) / (subset_clean.length : ℚ))).foldl qmax 0)

def is_valid_subset (text subset : String) : Bool :=
  if (cleanChars subset).length = 0 then false
  else decide (SIMILARITY_THRESHOLD ≤ best_ratio text subset)

/-- Total number of characters of the cleaned subset that lie in actual
matching blocks (the sizes reported by the sequence matcher). -/
def matched_total (text subset : String) : Nat :=
  ((get_matching_blocks (cleanChars text) (cleanChars subset)).map
    (fun m => m.2.2)).sum

/-- Length of the best concatenated span, measured end minus start. -/
def best_span (text subset : String) : Nat :=
  ((concatOuter (get_matching_blocks (cleanChars text) (cleanChars subset)) 0 []).map
    (fun s => s.2 - s.1)).foldl max 0

/-- Kernel-evaluable version of `best_ratio`. -/
def best_ratioF (text subset : String) : ℚ :=
  let subset_clean := cleanChars subset
  let match_blocks := get_matching_blocksF (cleanChars text) subset_clean
  ((concatOuterF match_blocks match_blocks.length 0 []).map
    (fun s => ((s.2 - s.1 : Nat) : ℚ) / (subset_clean.length : ℚ))).foldl qmax 0

def best_ratio_eval (t s : String) : best_ratio t s = best_ratioF t s := by
  simp only [best_ratio, best_ratioF]
  rw [get_matching_blocks_eval, concatOuterF_eq _ _ 0 [] (Nat.sub_le _ _)]

/-- Kernel-evaluable version of `is_valid_subset`. -/
def is_valid_subsetF (text subset : String) : Bool :=
  if (cleanChars subset).length = 0 then false
  else decide (SIMILARITY_THRESHOLD ≤ best_ratioF text subset)

def is_valid_subset_eval (t s : String) :
    is_valid_subset t s = is_valid_subsetF t s := by
  rw [is_valid_subset, is_valid_subsetF, best_ratio_eval]

def best_span_eval (t s : String) :
    best_span t s =
      ((concatOuterF (get_matching_blocksF (cleanChars t) (cleanChars s))
        (get_matching_blocksF (cleanChars t) (cleanChars s)).length 0 []).map
          (fun x => x.2 - x.1)).foldl max 0 := by
  rw [best_span, get_matching_blocks_eval, concatOuterF_eq _ _ 0 [] (Nat.sub_le _ _)]

/-! ### Ingestion data model

`IngestionResult` mirrors the dataclass in `src/ingestion/models.py`.
The URN path of `_store_and_process_case` assigns `result.case_id`, an
attribute that is not among the declared dataclass fields; it is modelled
as an extra optional slot so the assignment can be observed. -/

structure IngestionResult where
  success : Bool
  case_ids : List Nat := []
  document_ids : List Nat := []
  version_ids : List Nat := []
  section_ids : List Nat := []
  error : Option String := none
  case_id : Option Nat := none
deriving DecidableEq, Repr

inductive TriggerType where
  | urn
  | urn_list
  | blob_name
  | filepath
  | invalid (s : String)
deriving DecidableEq

/-- The `value` argument of `ingest` is annotated `str` but the URN-list
trigger iterates it, and callers pass a JSON list there. -/
inductive IngestValue where
  | str (s : String)
  | strList (l : List String)

/-! ### Batch URN loop (orchestrator source, URN_LIST branch)

`single` is `_ingest_from_urn`; a logical failure is a returned result
with `success=False`, while a raised exception is an `.error` that
escapes the loop. -/

def urnListLoop (single : String → Except String IngestionResult) :
    List String → IngestionResult → Except String IngestionResult
  | [], overall => .ok overall
  | urn :: rest, overall => do
    let result ← single urn.trim
    if result.success = false then
      let msg := "One or more URNs failed ingestion. Latest error: " ++ result.error.getD "None"
      urnListLoop single rest { overall with success := false, error := some msg }
    else
      urnListLoop single rest { overall with
        case_ids := overall.case_ids ++ result.case_ids,
        document_ids := overall.document_ids ++ result.document_ids,
        version_ids := overall.version_ids ++ result.version_ids,
        section_ids := overall.section_ids ++ result.section_ids }

/-! ### ingest entry point

Collaborators (CMS authentication and the three private handlers, which
close over the experiment id) are oracles that may raise.  `ingestCore`
is the body of the `try` block; `ingest` is the whole method with its
catch-all `except` converting any exception into a failure result. -/

structure IngestEnv where
  authenticate : Except String Bool
  ingestFromUrn : String → Except String IngestionResult
  ingestFromBlobName : String → Except String IngestionResult
  ingestFromFilepath : String → Except String IngestionResult

def ingestCore (env : IngestEnv) (trigger_type : TriggerType) (value : IngestValue) :
    Except String IngestionResult :=
  match trigger_type with
  | .urn => do
    let ok ← env.authenticate
    if ok = false then
      pure { success := false, error := some "CMS authentication failed" }
    else
      match value with
      | .str s => env.ingestFromUrn s
      | .strList _ => .error "TypeError: expected a string URN"
  | .urn_list => do
    let ok ← env.authenticate
    if ok = false then
      pure { success := false, error := some "CMS authentication failed" }
    else
      match value with
      | .strList l => urnListLoop env.ingestFromUrn l { success := true }
      -- iterating a Python string yields its characters
      | .str s =>
        urnListLoop env.ingestFromUrn (s.data.map fun c => String.mk [c]) { success := true }
  | .blob_name =>
    match value with
    | .str s => env.ingestFromBlobName s
    | .strList _ => .error "TypeError: expected a blob name string"
  | .filepath =>
    match value with
    | .str s => env.ingestFromFilepath s
    | .strList _ => .error "TypeError: expected a file path string"
  | .invalid s =>
    pure { success := false, error := some ("Unknown trigger type: " ++ s) }

def ingest (env : IngestEnv) (tt : TriggerType) (v : IngestValue) : IngestionResult :=
  match ingestCore env tt v with
  | .ok r => r
  | .error e => { success := false, error := some e }

/-! ### Per-version processing

Embedding of `_process_version` with each remote step an oracle.  The
parse, extract and redact steps are retried (attempt-indexed oracles
wrapped in `withRetry 3`); section extraction validates every narrative
against the parsed text with the real `is_valid_subset` and silently
drops failures; prompt lookups raise `ValueError` when absent. -/

structure PVEnv where
  document_id : Nat
  version_id : Nat
  load_blob : Except String String
  parse_attempt : Nat → Except String String
  save_parsed_blob : Except String Unit
  update_version_row : Except String Unit
  extractor_prompt : Option String
  extract_attempt : Nat → Except String (List String)
  redactor_prompt : Option String
  redact_attempt : String → Nat → Except String String
  upsert_experiment : Except String String
  create_section : Nat → Except String Nat
  save_section_blob : Nat → Except String Unit
  update_section_row : Nat → Except String Unit

def extract_sections (env : PVEnv) (context_text : String) :
    Except String (List String) :=
  match env.extractor_prompt with
  | none => .error "No prompt template found for agent section_extractor"
  | some _ => do
    let narratives ← withRetry 3 env.extract_attempt
    pure (narratives.filter (fun content => is_valid_subset context_text content))

def redact_content (env : PVEnv) (content : String) : Except String String :=
  match env.redactor_prompt with
  | none => .error "No prompt template found for agent redactor"
  | some _ => withRetry 3 (env.redact_attempt content)

def sectionsLoop (env : PVEnv) : List String → Nat → List Nat → Except String (List Nat)
  | [], _, ids => .ok ids
  | content :: rest, idx, ids => do
    let _redacted ← redact_content env content
    let sid ← env.create_section idx
    let _ ← env.save_section_blob sid
    let _ ← env.update_section_row sid
    sectionsLoop env rest (idx + 1) (ids ++ [sid])

def process_version (env : PVEnv) : Except String IngestionResult := do
  let _content ← env.load_blob
  let parsed ← withRetry 3 env.parse_attempt
  let _ ← env.save_parsed_blob
  let _ ← env.update_version_row
  let sections ← extract_sections env parsed
  let _expId ← env.upsert_experiment
  let sids ← sectionsLoop env sections 0 []
  pure { success := true,
         document_ids := [env.document_id],
         version_ids := [env.version_id],
         section_ids := sids }

/-! ### Version loop of _store_and_process_case

A raised exception from `_process_version` escapes the loop; only a
returned result with `success=False` reaches the warning-and-continue
branch.  The warnings list records the `logger.warning` calls of that
branch. -/

def versionsLoop (pv : PVEnv → Except String IngestionResult) :
    List PVEnv → IngestionResult → List String → Except String (IngestionResult × List String)
  | [], result, warnings => .ok (result, warnings)
  | env :: rest, result, warnings => do
    let doc_result ← pv env
    if doc_result.success then
      versionsLoop pv rest
        { result with
          document_ids := result.document_ids ++ doc_result.document_ids,
          version_ids := result.version_ids ++ doc_result.version_ids,
          section_ids := result.section_ids ++ doc_result.section_ids }
        warnings
    else
      versionsLoop pv rest result (warnings ++ ["Document processing failed"])

/-- Embedding of `_store_and_process_case` reduced to its result
construction: entity upserts yield `case_id`, the version loop follows;
the method assigns `result.case_id = case.id` and never touches
`result.case_ids`. -/
def store_and_process_case (case_id : Nat) (version_envs : List PVEnv) :
    Except String (IngestionResult × List String) :=
  versionsLoop process_version version_envs
    { success := true, case_id := some case_id } []

/-- A fully successful per-version environment (the extractor returns no
narratives, which is a valid empty result). -/
def pvEnvOk : PVEnv :=
  { document_id := 7
    version_id := 8
    load_blob := .ok "raw"
    parse_attempt := fun _ => .ok "parsed content"
    save_parsed_blob := .ok ()
    update_version_row := .ok ()
    extractor_prompt := some "tpl"
    extract_attempt := fun _ => .ok []
    redactor_prompt := some "tpl"
    redact_attempt := fun _ _ => .ok "redacted"
    upsert_experiment := .ok "exp"
    create_section := fun i => .ok (100 + i)
    save_section_blob := fun _ => .ok ()
    update_section_row := fun _ => .ok () }

/-- The successful environment with a parse step that fails on every
attempt, so the 3 retries exhaust. -/
def pvEnvParseFail : PVEnv :=
  { pvEnvOk with parse_attempt := fun _ => .error "parse boom" }

/-- Environment whose CMS authentication raises and whose filepath
handler raises; used to witness the exception-conversion theorem. -/
def authFailEnv : IngestEnv :=
  { authenticate := .error "auth exploded"
    ingestFromUrn := fun _ => .ok { success := true }
    ingestFromBlobName := fun _ => .ok { success := true }
    ingestFromFilepath := fun _ => .error "fs down" }

/-! ### Repositories

Embedding of `BaseRepository.upsert` over a repository state that is a
list of rows in insertion order.  `create` lets the database assign the
next id when none is supplied; updating sets every supplied field on the
existing row (Python `setattr` per kwarg, the id receiving its own
value). -/

structure Row where
  id : Nat
  fields : Dict
deriving DecidableEq

abbrev RepoState := List Row

def repoCreate (st : RepoState) (id? : Option Nat) (fields : Dict) : Row × RepoState :=
  match id? with
  | some i => (⟨i, fields⟩, st ++ [⟨i, fields⟩])
  | none =>
    ((⟨(st.map Row.id).foldl max 0 + 1, fields⟩ : Row),
      st ++ [⟨(st.map Row.id).foldl max 0 + 1, fields⟩])

def repoExists (st : RepoState) (i : Nat) : Bool := st.any (fun r => r.id = i)

def getById? (st : RepoState) (i : Nat) : Option Row :=
  match st with
  | [] => none
  | r :: rest => if r.id = i then some r else getById? rest i

def repoUpdateRow (st : RepoState) (i : Nat) (fields : Dict) : RepoState :=
  st.map (fun r => if r.id = i then ⟨r.id, dictUpdate r.fields fields⟩ else r)

def upsert (st : RepoState) (id? : Option Nat) (fields : Dict) : Row × RepoState :=
  match id? with
  | some i =>
    match getById? st i with
    | some r => (⟨i, dictUpdate r.fields fields⟩, repoUpdateRow st i fields)
    | none => repoCreate st (some i) fields
  | none => repoCreate st none fields

/-- One ingestion pass over the three repositories touched with
caller-supplied ids: case, document and version. -/
def ingestRows (cid did vid : Nat) (cf df vf : Dict)
    (st : RepoState × RepoState × RepoState) : RepoState × RepoState × RepoState :=
  ((upsert st.1 (some cid) cf).2,
   (upsert st.2.1 (some did) df).2,
   (upsert st.2.2 (some vid) vf).2)

def countId (st : RepoState) (i : Nat) : Nat := (st.filter (fun r => r.id = i)).length

/-! ### Analysis orchestrator

Embedding of `AnalysisOrchestrator.analyze`: the task dictionary is a
Python dict built from the registry list (first-occurrence order, last
value wins); requested ids are resolved by membership, an empty or
missing request running the whole registry.  The worker oracle maps a
task id to the results that task persists, or to a raised exception. -/

structure AnalysisTask where
  task_id : String
deriving DecidableEq

structure AnalysisJob where
  section_id : Nat
  experiment_id : String
  task_ids : String
deriving DecidableEq, Repr

def dictInsertTask (d : List (String × AnalysisTask)) (k : String) (v : AnalysisTask) :
    List (String × AnalysisTask) :=
  if d.any (fun p => p.1 = k) then d.map (fun p => if p.1 = k then (k, v) else p)
  else d ++ [(k, v)]

def buildTaskDict (tasks : List AnalysisTask) : List (String × AnalysisTask) :=
  tasks.foldl (fun d t => dictInsertTask d t.task_id t) []

def lookupTask? (d : List (String × AnalysisTask)) (tid : String) : Option AnalysisTask :=
  match d with
  | [] => none
  | (k, v) :: rest => if k = tid then some v else lookupTask? rest tid

def resolveTasks (registry : List AnalysisTask) (task_ids : Option (List String)) :
    List AnalysisTask :=
  match task_ids with
  | some tids =>
    if tids.isEmpty then (buildTaskDict registry).map Prod.snd
    else tids.filterMap (fun tid => lookupTask? (buildTaskDict registry) tid)
  | none => (buildTaskDict registry).map Prod.snd

def runTasksSequentially (worker : String → Except String (List Nat)) :
    List AnalysisTask → Except String (List Nat)
  | [] => .ok []
  | t :: rest => do
    let rs ← worker t.task_id
    let more ← runTasksSequentially worker rest
    pure (rs ++ more)

def analyze (registry : List AnalysisTask) (worker : String → Except String (List Nat))
    (section_id : Nat) (experiment_id : String) (task_ids : Option (List String)) :
    Except String (AnalysisJob × List Nat) := do
  let tasks_to_run := resolveTasks registry task_ids
  let job : AnalysisJob :=
    { section_id := section_id
      experiment_id := experiment_id
      task_ids := String.intercalate "," (tasks_to_run.map AnalysisTask.task_id) }
  let results ← runTasksSequentially worker tasks_to_run
  pure (job, results)

def matched_total_eval (t s : String) :
    matched_total t s =
      ((get_matching_blocksF (cleanChars t) (cleanChars s)).map (fun m => m.2.2)).sum := by
  rw [matched_total, get_matching_blocks_eval]

/-! ## Theorems -/

theorem getD_map_lt {α β : Type} (g : α → β) (l : List α) (i : Nat) (dA : α) (dB : β)
    (h : i < l.length) : (l.map g).getD i dB = g (l.getD i dA) := by
  induction l generalizing i with
  | nil => simp at h
  | cons x xs ih =>
    cases i with
    | zero => simp [List.getD_cons_zero]
    | succ n =>
      simp only [List.length_cons, Nat.succ_lt_succ_iff] at h
      simp only [List.map_cons, List.getD_cons_succ]
      exact ih n h

theorem parse_results_ok (references results : List Dict)
    (href : ∀ r ∈ references, (dget? r "hash_id").isSome) :
    parse_results references results = .ok (references.map (fun r =>
      (results.filter (fun f => dget? f "hash_id" = dget? r "hash_id")).foldl dictUpdate r)) := by
  induction references with
  | nil => rfl
  | cons r rest ih =>
    obtain ⟨h, hh⟩ : ∃ h, dget? r "hash_id" = some h :=
      Option.isSome_iff_exists.mp (href r (by simp))
    have hrest : ∀ x ∈ rest, (dget? x "hash_id").isSome := fun x hx => href x (by simp [hx])
    have hone : mergeOneReference results r = .ok
        ((results.filter (fun f => dget? f "hash_id" = dget? r "hash_id")).foldl dictUpdate r) := by
      rw [mergeOneReference, hh]
      exact congrArg Except.ok
        (foldl_update_filter results (fun res => dget? res "hash_id" = some h) r)
    simp only [parse_results] at ih ⊢
    rw [List.mapM_cons, hone, ih hrest]
    rfl

/-- C1 (amended): for every critic output, the parsed output of the graph
worker has exactly one merged record per candidate reference; each record
is obtained from the candidate by applying, via Python dict update,
exactly the result fragments whose hash field equals the hash of that
candidate (so no field of another candidate leaks in), with the value of
every key being the one from the last matching fragment carrying that
key, and the candidate value only where no matching fragment carries the
key — fragment fields therefore overwrite same-named candidate fields
rather than being dropped. -/
theorem C1_fan_in_merge (references results : List Dict)
    (href : ∀ r ∈ references, (dget? r "hash_id").isSome)
    (hres : ∀ f ∈ results, (f.map Prod.fst).Nodup) :
    ∃ out, parse_results references results = .ok out ∧
      out.length = references.length ∧
      ∀ i, i < references.length → ∀ k : String,
        dget? (out.getD i []) k =
          ((lastVal (results.filter
              (fun f => dget? f "hash_id" = dget? (references.getD i []) "hash_id")) k) <|>
            dget? (references.getD i []) k) := by
  refine ⟨_, parse_results_ok references results href, by simp, ?_⟩
  intro i hi k
  rw [getD_map_lt _ _ i [] [] hi]
  exact dget?_foldl_update _ _ k (fun f hf => hres f (List.mem_of_mem_filter hf))

theorem C1_fan_in_merge_witness :
    ∃ out,
      parse_results
          [[("hash_id", "h1"), ("content", "c1")], [("hash_id", "h2"), ("content", "c2")]]
          [[("hash_id", "h2"), ("is_witness", "yes")], [("hash_id", "h1"), ("is_witness", "no")]]
        = .ok out ∧
      out.length = 2 ∧
      ∀ i, i < 2 → ∀ k : String,
        dget? (out.getD i []) k =
          ((lastVal ([[("hash_id", "h2"), ("is_witness", "yes")],
              [("hash_id", "h1"), ("is_witness", "no")]].filter
              (fun f => dget? f "hash_id" =
                dget? ([[("hash_id", "h1"), ("content", "c1")],
                  [("hash_id", "h2"), ("content", "c2")]].getD i []) "hash_id")) k) <|>
            dget? ([[("hash_id", "h1"), ("content", "c1")],
              [("hash_id", "h2"), ("content", "c2")]].getD i []) k) := by
  have := C1_fan_in_merge
    [[("hash_id", "h1"), ("content", "c1")], [("hash_id", "h2"), ("content", "c2")]]
    [[("hash_id", "h2"), ("is_witness", "yes")], [("hash_id", "h1"), ("is_witness", "no")]]
    (by decide) (by decide)
  simpa using this

/-- C1 counterexample: a result fragment whose hash matches the candidate
overwrites a field already present on the candidate (here `is_witness`
changes from `orig` to `frag`), contradicting the claim that fragment
fields never overwrite fields already present on the candidate. -/
theorem C1_counterexample :
    parse_results [[("hash_id", "h1"), ("content", "c"), ("is_witness", "orig")]]
        [[("hash_id", "h1"), ("is_witness", "frag")]] =
      .ok [[("hash_id", "h1"), ("content", "c"), ("is_witness", "frag")]] ∧
    ("frag" : String) ≠ "orig" := by
  constructor
  · rfl
  · decide

theorem retryTraceAux_fst {α : Type} (f : Nat → Except String α) :
    ∀ (n i : Nat), (retryTraceAux f i n).1 = retryAux f i n := by
  intro n
  induction n with
  | zero => intro i; rfl
  | succ m ih =>
    intro i
    simp only [retryTraceAux, retryAux]
    cases f i <;> simp [ih]

/-- C5: bounded retry has an attempt ceiling of 3 with a fixed wait of 1
between attempts; failing all 3 attempts fails the operation with the
last underlying error, failing once then succeeding on attempt 2 yields
the successful result after one wait; in the defence-reviewer branch the
defence call is retried up to 3 times while the reviewer call is invoked
exactly once and not retried, and the emitted fragment merges the
reviewer output with the defence fields. -/
theorem C5_retry_semantics :
    (∀ (f : Nat → Except String Nat) (n : Nat), (withRetryTrace n f).1 = withRetry n f) ∧
    (∀ e0 e1 e2 : String,
      withRetryTrace 3
          (fun i => (.error (if i = 0 then e0 else if i = 1 then e1 else e2) : Except String Nat)) =
        (.error e2, 3, [1, 1])) ∧
    (∀ (e : String) (a : Nat),
      withRetryTrace 3 (fun i => if i = 0 then (.error e : Except String Nat) else .ok a) =
        (.ok a, 2, [1])) ∧
    (∀ (h : String) (d : DefenceResponse) (e : String) (rv : ReviewerResponse),
      defenceReviewerBranch h (fun _ => .ok d)
        (fun i => if i = 0 then .error e else .ok rv) = .error e) ∧
    (∀ (h e : String) (d : DefenceResponse) (rv : ReviewerResponse),
      defenceReviewerBranch h (fun i => if i ≤ 1 then .error e else .ok d) (fun _ => .ok rv) =
        .ok [("hash_id", h),
             ("defence_verdict", d.verdict),
             ("defence_pattern", d.pattern),
             ("defence_argument", d.argument),
             ("reviewer_final_verdict", rv.final_verdict),
             ("reviewer_confidence_score", rv.self_confidence_score),
             ("reviewer_reasoning", rv.reasoning)]) := by
  refine ⟨fun f n => retryTraceAux_fst f (n - 1) 0, fun e0 e1 e2 => rfl, fun e a => rfl,
    fun h d e rv => rfl, fun h e d rv => rfl⟩

/-- C3: the ingest entry point converts every exception raised inside its
body — by authentication or by any trigger handler — into a returned
result with success false carrying the error message, and otherwise
returns the handler result unchanged; it never propagates an exception. -/
theorem C3_ingest_never_raises :
    (∀ (env : IngestEnv) (tt : TriggerType) (v : IngestValue),
      match ingestCore env tt v with
      | .ok r => ingest env tt v = r
      | .error e => ingest env tt v = { success := false, error := some e }) ∧
    (∀ (env : IngestEnv) (v : IngestValue) (e : String),
      env.authenticate = .error e →
        ingest env .urn v = { success := false, error := some e }) ∧
    (∀ (env : IngestEnv) (s e : String),
      env.authenticate = .ok true → env.ingestFromUrn s = .error e →
        ingest env .urn (.str s) = { success := false, error := some e }) ∧
    (∀ (env : IngestEnv) (s e : String),
      env.ingestFromBlobName s = .error e →
        ingest env .blob_name (.str s) = { success := false, error := some e }) ∧
    (∀ (env : IngestEnv) (s e : String),
      env.ingestFromFilepath s = .error e →
        ingest env .filepath (.str s) = { success := false, error := some e }) := by
  refine ⟨?_, ?_, ?_, ?_, ?_⟩
  · intro env tt v
    cases h : ingestCore env tt v <;> simp [ingest, h]
  · intro env v e h
    simp [ingest, ingestCore, h, Bind.bind, Except.bind]
  · intro env s e h1 h2
    simp [ingest, ingestCore, h1, h2, Bind.bind, Except.bind]
  · intro env s e h
    simp [ingest, ingestCore, h]
  · intro env s e h
    simp [ingest, ingestCore, h]

theorem C3_ingest_never_raises_witness :
    ingest authFailEnv .urn (.str "URN1") =
      { success := false, error := some "auth exploded" } ∧
    ingest authFailEnv .filepath (.str "doc.pdf") =
      { success := false, error := some "fs down" } :=
  ⟨C3_ingest_never_raises.2.1 authFailEnv (.str "URN1") "auth exploded" rfl,
   C3_ingest_never_raises.2.2.2.2 authFailEnv "doc.pdf" "fs down" rfl⟩

theorem urnListLoop_spec (single : String → IngestionResult) :
    ∀ (urns : List String) (acc : IngestionResult),
      urnListLoop (fun u => .ok (single u)) urns acc = .ok
        { success := acc.success && urns.all (fun u => (single u.trim).success)
          case_ids := acc.case_ids ++
            ((urns.filter (fun u => (single u.trim).success)).map
              (fun u => (single u.trim).case_ids)).flatten
          document_ids := acc.document_ids ++
            ((urns.filter (fun u => (single u.trim).success)).map
              (fun u => (single u.trim).document_ids)).flatten
          version_ids := acc.version_ids ++
            ((urns.filter (fun u => (single u.trim).success)).map
              (fun u => (single u.trim).version_ids)).flatten
          section_ids := acc.section_ids ++
            ((urns.filter (fun u => (single u.trim).success)).map
              (fun u => (single u.trim).section_ids)).flatten
          error := urns.foldl
            (fun e u => if (single u.trim).success then e
              else some ("One or more URNs failed ingestion. Latest error: " ++
                (single u.trim).error.getD "None"))
            acc.error
          case_id := acc.case_id } := by
  intro urns
  induction urns with
  | nil =>
    intro acc
    cases acc
    simp [urnListLoop]
  | cons u rest ih =>
    intro acc
    by_cases hs : (single u.trim).success
    · simp only [urnListLoop, Bind.bind, Except.bind, hs, Bool.true_eq_false, if_neg,
        Bool.not_eq_true, reduceIte, ih]
      simp [hs, List.filter_cons, List.all_cons, Bool.and_assoc]
    · have hs' : (single u.trim).success = false := by simpa using hs
      simp only [urnListLoop, Bind.bind, Except.bind, hs', reduceIte, ih]
      simp [hs', List.filter_cons, List.all_cons]

/-- C7: the batch URN loop processes every item through the single-URN
path in order; a returned item failure does not stop the loop — the ids
of all successful items, in order, are aggregated, the overall success
flag is the conjunction of the item successes, and the error field holds
the message of the most recent failing item only. -/
theorem C7_batch_urn_ingestion (single : String → IngestionResult) (urns : List String) :
    urnListLoop (fun u => .ok (single u)) urns { success := true } = .ok
      { success := urns.all (fun u => (single u.trim).success)
        case_ids := ((urns.filter (fun u => (single u.trim).success)).map
          (fun u => (single u.trim).case_ids)).flatten
        document_ids := ((urns.filter (fun u => (single u.trim).success)).map
          (fun u => (single u.trim).document_ids)).flatten
        version_ids := ((urns.filter (fun u => (single u.trim).success)).map
          (fun u => (single u.trim).version_ids)).flatten
        section_ids := ((urns.filter (fun u => (single u.trim).success)).map
          (fun u => (single u.trim).section_ids)).flatten
        error := urns.foldl
          (fun e u => if (single u.trim).success then e
            else some ("One or more URNs failed ingestion. Latest error: " ++
              (single u.trim).error.getD "None"))
          none
        case_id := none } := by
  simpa using urnListLoop_spec single urns { success := true }

theorem except_bind_ok {α β : Type} (x : Except String α) (f : α → Except String β) (b : β)
    (h : (x >>= f) = .ok b) : ∃ a, x = .ok a ∧ f a = .ok b := by
  cases x with
  | error e => simp [Bind.bind, Except.bind] at h
  | ok a => exact ⟨a, rfl, by simpa [Bind.bind, Except.bind] using h⟩

theorem process_version_ok_success (env : PVEnv) :
    match process_version env with
    | .ok r => r.success = true
    | .error _ => True := by
  rcases hpv : process_version env with r | e
  case error => trivial
  case ok =>
    rw [process_version] at hpv
    obtain ⟨c, _, hpv⟩ := except_bind_ok _ _ _ hpv
    obtain ⟨p, _, hpv⟩ := except_bind_ok _ _ _ hpv
    obtain ⟨u1, _, hpv⟩ := except_bind_ok _ _ _ hpv
    obtain ⟨u2, _, hpv⟩ := except_bind_ok _ _ _ hpv
    obtain ⟨secs, _, hpv⟩ := except_bind_ok _ _ _ hpv
    obtain ⟨ex, _, hpv⟩ := except_bind_ok _ _ _ hpv
    obtain ⟨sids, _, hpv⟩ := except_bind_ok _ _ _ hpv
    simp only [pure, Except.pure, Except.ok.injEq] at hpv
    rw [← hpv]

/-- C4: exhaustion of the parse retries inside per-version processing is
an exception, not a returned failure: per-version processing only ever
returns results with success true, so the warning-and-continue branch of
the case loop cannot run; with two versions of a case where the first
exhausts its parse retries, the whole loop fails with the parse error,
no warning is recorded, and the second version is never processed
regardless of its behaviour. -/
theorem C4_version_failure_not_isolated :
    (∀ env : PVEnv,
      match process_version env with
      | .ok r => r.success = true
      | .error _ => True) ∧
    process_version pvEnvParseFail = .error "parse boom" ∧
    (∀ (env2 : PVEnv) (r0 : IngestionResult) (w0 : List String),
      versionsLoop process_version [pvEnvParseFail, env2] r0 w0 = .error "parse boom") := by
  refine ⟨process_version_ok_success, rfl, fun env2 r0 w0 => rfl⟩

/-- C9: on the URN ingestion path the created case id is stored on the
dynamically added case_id attribute while the case_ids list of the
result stays empty, so the batch loop aggregates no case ids from it;
the claim that the case id appears in the case-ids list fails on this
code. -/
theorem C9_case_id_not_in_case_ids :
    store_and_process_case 42 [pvEnvOk] =
      .ok ({ success := true, case_ids := [], document_ids := [7], version_ids := [8],
             section_ids := [], error := none, case_id := some 42 }, []) ∧
    urnListLoop (fun _ => .ok { success := true, document_ids := [7], version_ids := [8], case_id := some 42 }) ["URN1"] { success := true } =
      .ok { success := true, case_ids := [], document_ids := [7], version_ids := [8],
            section_ids := [], error := none, case_id := none } := by
  constructor
  · rfl
  · rfl

theorem dictInsertTask_mem (d : List (String × AnalysisTask)) (k : String)
    (v : AnalysisTask) (p : String × AnalysisTask) (h : p ∈ dictInsertTask d k v) :
    p ∈ d ∨ p = (k, v) := by
  rw [dictInsertTask] at h
  split at h
  · obtain ⟨q, hq, hqe⟩ := List.mem_map.mp h
    by_cases hk : q.1 = k
    · rw [if_pos hk] at hqe
      exact Or.inr hqe.symm
    · rw [if_neg hk] at hqe
      exact Or.inl (hqe ▸ hq)
  · rcases List.mem_append.mp h with h1 | h2
    · exact Or.inl h1
    · exact Or.inr (by simpa using h2)

theorem dict_foldl_inv (Q : String × AnalysisTask → Prop) :
    ∀ (ts : List AnalysisTask) (d : List (String × AnalysisTask)),
      (∀ p ∈ d, Q p) → (∀ t ∈ ts, Q (t.task_id, t)) →
      ∀ p ∈ ts.foldl (fun d t => dictInsertTask d t.task_id t) d, Q p := by
  intro ts
  induction ts with
  | nil => intro d hd _ p hp; exact hd p hp
  | cons t rest ih =>
    intro d hd hts p hp
    refine ih (dictInsertTask d t.task_id t) ?_ (fun x hx => hts x (by simp [hx])) p hp
    intro q hq
    rcases dictInsertTask_mem d t.task_id t q hq with h | h
    · exact hd q h
    · rw [h]; exact hts t (by simp)

theorem buildTaskDict_mem (ts : List AnalysisTask) (p : String × AnalysisTask)
    (hp : p ∈ buildTaskDict ts) : p.2 ∈ ts ∧ p.2.task_id = p.1 := by
  refine dict_foldl_inv (fun p => p.2 ∈ ts ∧ p.2.task_id = p.1) ts [] ?_ ?_ p hp
  · intro q hq; simp at hq
  · intro t ht; exact ⟨ht, rfl⟩

theorem dictInsertTask_keeps_key (d : List (String × AnalysisTask)) (k : String)
    (v : AnalysisTask) (key : String) (h : ∃ p ∈ d, p.1 = key) :
    ∃ p ∈ dictInsertTask d k v, p.1 = key := by
  obtain ⟨p, hp, hpk⟩ := h
  rw [dictInsertTask]
  by_cases hc : d.any (fun q => q.1 = k)
  · rw [if_pos hc]
    by_cases hk : p.1 = k
    · exact ⟨(k, v), List.mem_map.mpr ⟨p, hp, by rw [if_pos hk]⟩, by rw [← hpk, hk]⟩
    · exact ⟨p, List.mem_map.mpr ⟨p, hp, by rw [if_neg hk]⟩, hpk⟩
  · rw [if_neg hc]
    exact ⟨p, List.mem_append.mpr (Or.inl hp), hpk⟩

theorem dictInsertTask_adds_key (d : List (String × AnalysisTask)) (k : String)
    (v : AnalysisTask) : ∃ p ∈ dictInsertTask d k v, p.1 = k := by
  rw [dictInsertTask]
  by_cases hc : d.any (fun q => q.1 = k)
  · rw [if_pos hc]
    obtain ⟨q, hq, hqk⟩ := List.any_eq_true.mp hc
    refine ⟨(k, v), List.mem_map.mpr ⟨q, hq, by rw [if_pos (by simpa using hqk)]⟩, rfl⟩
  · rw [if_neg hc]
    exact ⟨(k, v), List.mem_append.mpr (Or.inr (by simp)), rfl⟩

theorem dict_foldl_keeps_key (key : String) :
    ∀ (ts : List AnalysisTask) (d : List (String × AnalysisTask)),
      (∃ p ∈ d, p.1 = key) →
      ∃ p ∈ ts.foldl (fun d t => dictInsertTask d t.task_id t) d, p.1 = key := by
  intro ts
  induction ts with
  | nil => intro d h; exact h
  | cons t rest ih =>
    intro d h
    exact ih (dictInsertTask d t.task_id t) (dictInsertTask_keeps_key d t.task_id t key h)

theorem dict_foldl_covers (t : AnalysisTask) :
    ∀ (ts : List AnalysisTask) (d : List (String × AnalysisTask)), t ∈ ts →
      ∃ p ∈ ts.foldl (fun d x => dictInsertTask d x.task_id x) d, p.1 = t.task_id := by
  intro ts
  induction ts with
  | nil => intro d h; simp at h
  | cons x rest ih =>
    intro d h
    rcases List.mem_cons.mp h with h | h
    · subst h
      exact dict_foldl_keeps_key t.task_id rest _ (dictInsertTask_adds_key d t.task_id t)
    · exact ih _ h

theorem buildTaskDict_covers (ts : List AnalysisTask) (t : AnalysisTask) (ht : t ∈ ts) :
    ∃ p ∈ buildTaskDict ts, p.1 = t.task_id :=
  dict_foldl_covers t ts [] ht

theorem lookupTask?_mem (d : List (String × AnalysisTask)) (tid : String)
    (v : AnalysisTask) (h : lookupTask? d tid = some v) : (tid, v) ∈ d := by
  induction d with
  | nil => simp [lookupTask?] at h
  | cons p rest ih =>
    obtain ⟨k, w⟩ := p
    rw [lookupTask?] at h
    by_cases hk : k = tid
    · rw [if_pos hk] at h
      subst hk
      simp only [Option.some.injEq] at h
      subst h
      simp
    · rw [if_neg hk] at h
      exact List.mem_cons.mpr (Or.inr (ih h))

theorem lookupTask?_eq_none (d : List (String × AnalysisTask)) (tid : String)
    (h : ∀ p ∈ d, p.1 ≠ tid) : lookupTask? d tid = none := by
  induction d with
  | nil => rfl
  | cons p rest ih =>
    obtain ⟨k, w⟩ := p
    rw [lookupTask?, if_neg (by simpa using h (k, w) (by simp))]
    exact ih (fun q hq => h q (by simp [hq]))

/-- C6: requested task ids not in the registry are silently dropped (every
resolved task was requested by id and comes from the registry); with no
task ids the full registry dictionary is run; and when every given id is
unknown the job row is still created with an empty resolved task set,
zero tasks run, zero results are produced and no error is raised. -/
theorem C6_task_id_resolution :
    (∀ (registry : List AnalysisTask) (tids : List String) (t : AnalysisTask),
      tids ≠ [] → t ∈ resolveTasks registry (some tids) →
        t.task_id ∈ tids ∧ t ∈ registry) ∧
    (∀ registry : List AnalysisTask,
      resolveTasks registry none = (buildTaskDict registry).map Prod.snd ∧
      ∀ t ∈ registry, ∃ p ∈ buildTaskDict registry, p.1 = t.task_id) ∧
    (∀ (registry : List AnalysisTask) (worker : String → Except String (List Nat))
        (sid : Nat) (eid : String),
      (∀ t ∈ registry, t.task_id ≠ "x") →
        analyze registry worker sid eid (some ["x"]) =
          .ok ({ section_id := sid, experiment_id := eid, task_ids := "" }, [])) := by
  refine ⟨?_, ?_, ?_⟩
  · intro registry tids t hne ht
    rw [resolveTasks, if_neg (by simpa [List.isEmpty_iff] using hne)] at ht
    obtain ⟨tid, htid, hlk⟩ := List.mem_filterMap.mp ht
    have hmem := buildTaskDict_mem registry (tid, t) (lookupTask?_mem _ tid t hlk)
    refine ⟨?_, hmem.1⟩
    rw [hmem.2]
    exact htid
  · intro registry
    exact ⟨rfl, fun t ht => buildTaskDict_covers registry t ht⟩
  · intro registry worker sid eid h
    have hdict : ∀ p ∈ buildTaskDict registry, p.1 ≠ "x" := by
      intro p hp
      have hm := buildTaskDict_mem registry p hp
      rw [← hm.2]
      exact h p.2 hm.1
    have hres : resolveTasks registry (some ["x"]) = [] := by
      rw [resolveTasks, if_neg (by simp)]
      simp [lookupTask?_eq_none _ _ hdict]
    simp [analyze, hres, runTasksSequentially, Bind.bind, Except.bind, pure, Except.pure]
    rfl

theorem C6_task_id_resolution_witness :
    ((⟨"critic_a"⟩ : AnalysisTask).task_id ∈ ["critic_a", "zzz"] ∧
      (⟨"critic_a"⟩ : AnalysisTask) ∈ [(⟨"critic_a"⟩ : AnalysisTask)]) ∧
    analyze [⟨"critic_a"⟩] (fun _ => .ok [1]) 5 "exp" (some ["x"]) =
      .ok ({ section_id := 5, experiment_id := "exp", task_ids := "" }, []) := by
  constructor
  · exact C6_task_id_resolution.1 [⟨"critic_a"⟩] ["critic_a", "zzz"] ⟨"critic_a"⟩
      (by decide) (by decide)
  · exact C6_task_id_resolution.2.2 [⟨"critic_a"⟩] (fun _ => .ok [1]) 5 "exp" (by decide)

theorem getById?_isSome_of_exists (st : RepoState) (i : Nat)
    (h : repoExists st i = true) : ∃ r, getById? st i = some r := by
  induction st with
  | nil => simp [repoExists] at h
  | cons r rest ih =>
    by_cases hr : r.id = i
    · exact ⟨r, by simp [getById?, hr]⟩
    · simp only [repoExists, List.any_cons] at h
      rcases Bool.or_eq_true_iff.mp h with h1 | h2
      · exact absurd (by simpa using h1) hr
      · obtain ⟨q, hq⟩ := ih h2
        exact ⟨q, by simp [getById?, hr, hq]⟩

theorem getById?_eq_none_of_not_exists (st : RepoState) (i : Nat)
    (h : repoExists st i = false) : getById? st i = none := by
  induction st with
  | nil => rfl
  | cons r rest ih =>
    simp only [repoExists, List.any_cons, Bool.or_eq_false_iff] at h
    rw [getById?, if_neg (by simpa using h.1)]
    exact ih h.2

theorem repoUpdateRow_ids (st : RepoState) (i : Nat) (f : Dict) :
    (repoUpdateRow st i f).map Row.id = st.map Row.id := by
  induction st with
  | nil => rfl
  | cons r rest ih =>
    simp only [repoUpdateRow, List.map_cons] at ih ⊢
    by_cases h : r.id = i <;> simp [h, ih]

/-- C8: upsert with a caller-supplied id that exists updates the row in
place (same row count, same ids in the same order), while a fresh or
absent id appends a new row; hence running the case-document-version
ingestion upserts twice with the same caller-supplied ids leaves exactly
one row with each id in each repository. -/
theorem C8_upsert_idempotent :
    (∀ (st : RepoState) (i : Nat) (fields : Dict), repoExists st i = true →
      (upsert st (some i) fields).2.length = st.length ∧
      (upsert st (some i) fields).2.map Row.id = st.map Row.id) ∧
    (∀ (st : RepoState) (i : Nat) (fields : Dict), repoExists st i = false →
      (upsert st (some i) fields).2 = st ++ [⟨i, fields⟩]) ∧
    (∀ (cid did vid : Nat) (cf df vf : Dict),
      countId (ingestRows cid did vid cf df vf
        (ingestRows cid did vid cf df vf ([], [], []))).1 cid = 1 ∧
      countId (ingestRows cid did vid cf df vf
        (ingestRows cid did vid cf df vf ([], [], []))).2.1 did = 1 ∧
      countId (ingestRows cid did vid cf df vf
        (ingestRows cid did vid cf df vf ([], [], []))).2.2 vid = 1 ∧
      (ingestRows cid did vid cf df vf
        (ingestRows cid did vid cf df vf ([], [], []))).1.length = 1 ∧
      (ingestRows cid did vid cf df vf
        (ingestRows cid did vid cf df vf ([], [], []))).2.1.length = 1 ∧
      (ingestRows cid did vid cf df vf
        (ingestRows cid did vid cf df vf ([], [], []))).2.2.length = 1) := by
  refine ⟨?_, ?_, ?_⟩
  · intro st i fields h
    obtain ⟨r, hr⟩ := getById?_isSome_of_exists st i h
    constructor
    · simp [upsert, hr, repoUpdateRow]
    · simp [upsert, hr, repoUpdateRow_ids]
  · intro st i fields h
    simp [upsert, getById?_eq_none_of_not_exists st i h, repoCreate]
  · intro cid did vid cf df vf
    simp [ingestRows, upsert, getById?, repoCreate, repoUpdateRow, countId, repoExists]

theorem C8_upsert_idempotent_witness :
    ((upsert [⟨3, [("urn", "U")]⟩] (some 3) [("area_id", "7")]).2.length = 1 ∧
      (upsert [⟨3, [("urn", "U")]⟩] (some 3) [("area_id", "7")]).2.map Row.id =
        [⟨3, [("urn", "U")]⟩].map Row.id) ∧
    (upsert [] (some 5) [("urn", "V")]).2 = [⟨5, [("urn", "V")]⟩] := by
  constructor
  · exact C8_upsert_idempotent.1 [⟨3, [("urn", "U")]⟩] 3 [("area_id", "7")] (by decide)
  · exact C8_upsert_idempotent.2.1 [] 5 [("urn", "V")] (by decide)

/-- C2: the validator lowercases and strips non-alphanumeric characters
from both arguments, returns false (raising nothing) when the cleaned
subset is empty, and otherwise accepts exactly when the best
concatenated-span ratio (matching blocks within a gap of 100 characters
merged into one span) reaches the 0.90 threshold; a ratio of exactly 90
percent accepts and a ratio just below rejects. -/
theorem C2_fuzzy_subset_validator :
    (cleanChars "A?b!3 X" = ['a', 'b', '3', 'x']) ∧
    (∀ text subset : String, cleanChars subset = [] → is_valid_subset text subset = false) ∧
    (∀ text subset : String, cleanChars subset ≠ [] →
      (is_valid_subset text subset = true ↔ SIMILARITY_THRESHOLD ≤ best_ratio text subset)) ∧
    (best_ratio "abcdefghi" "abcdefghiz" = 9 / 10 ∧
      is_valid_subset "abcdefghi" "abcdefghiz" = true) ∧
    (best_ratio "abcdefghijklmnopq" "abcdefghijklmnopqzz" = 17 / 19 ∧
      (17 : ℚ) / 19 < 9 / 10 ∧
      is_valid_subset "abcdefghijklmnopq" "abcdefghijklmnopqzz" = false) := by
  have h90 : best_ratio "abcdefghi" "abcdefghiz" = 9 / 10 := by
    rw [best_ratio_eval]
    simp only [best_ratioF]
    rw [show get_matching_blocksF (cleanChars "abcdefghi") (cleanChars "abcdefghiz") =
      [(0, 0, 9), (9, 10, 0)] from by decide]
    rw [show (cleanChars "abcdefghiz").length = 10 from by decide]
    norm_num [concatOuterF, concatInner, List.foldl, qmax, BIGGEST_ALLOWED_GAP]
  have h17 : best_ratio "abcdefghijklmnopq" "abcdefghijklmnopqzz" = 17 / 19 := by
    rw [best_ratio_eval]
    simp only [best_ratioF]
    rw [show get_matching_blocksF (cleanChars "abcdefghijklmnopq")
      (cleanChars "abcdefghijklmnopqzz") = [(0, 0, 17), (17, 19, 0)] from by decide]
    rw [show (cleanChars "abcdefghijklmnopqzz").length = 19 from by decide]
    norm_num [concatOuterF, concatInner, List.foldl, qmax, BIGGEST_ALLOWED_GAP]
  refine ⟨by decide, ?_, ?_, ⟨h90, ?_⟩, ⟨h17, by norm_num, ?_⟩⟩
  · intro text subset h
    rw [is_valid_subset, if_pos (by simp [h])]
  · intro text subset h
    rw [is_valid_subset, if_neg (by simpa [List.length_eq_zero] using h)]
    simp
  · rw [is_valid_subset, if_neg (by decide), h90]
    simp [SIMILARITY_THRESHOLD]
  · rw [is_valid_subset, if_neg (by decide), h17]
    simp only [SIMILARITY_THRESHOLD, decide_eq_false_iff_not]
    norm_num

theorem C2_fuzzy_subset_validator_witness :
    is_valid_subset "abc" ".!?" = false ∧
    (is_valid_subset "abc" "abc" = true ↔ SIMILARITY_THRESHOLD ≤ best_ratio "abc" "abc") :=
  ⟨C2_fuzzy_subset_validator.2.1 "abc" ".!?" (by decide),
   C2_fuzzy_subset_validator.2.2.1 "abc" "abc" (by decide)⟩

/-- C10: the concatenated-span length is measured end minus start in the
cleaned source text and therefore counts the gap characters between the
concatenated matching blocks: on the input below the best span is 20
while only 4 of the 18 cleaned subset characters lie in matching blocks,
the computed ratio 10/9 exceeds 1, and the validator accepts although
far fewer than 90 percent of the subset characters occur in matching
blocks. -/
theorem C10_span_counts_gap_characters :
    best_span "abjjjjjjjjjjjjjjjjcd" "abzzzzzzzzzzzzzzcd" = 20 ∧
    matched_total "abjjjjjjjjjjjjjjjjcd" "abzzzzzzzzzzzzzzcd" = 4 ∧
    (cleanChars "abzzzzzzzzzzzzzzcd").length = 18 ∧
    best_ratio "abjjjjjjjjjjjjjjjjcd" "abzzzzzzzzzzzzzzcd" = 10 / 9 ∧
    (1 : ℚ) < 10 / 9 ∧
    is_valid_subset "abjjjjjjjjjjjjjjjjcd" "abzzzzzzzzzzzzzzcd" = true ∧
    10 * matched_total "abjjjjjjjjjjjjjjjjcd" "abzzzzzzzzzzzzzzcd" <
      9 * (cleanChars "abzzzzzzzzzzzzzzcd").length := by
  have hbr : best_ratio "abjjjjjjjjjjjjjjjjcd" "abzzzzzzzzzzzzzzcd" = 10 / 9 := by
    rw [best_ratio_eval]
    simp only [best_ratioF]
    rw [show get_matching_blocksF (cleanChars "abjjjjjjjjjjjjjjjjcd")
      (cleanChars "abzzzzzzzzzzzzzzcd") = [(0, 0, 2), (18, 16, 2), (20, 18, 0)] from by decide]
    rw [show (cleanChars "abzzzzzzzzzzzzzzcd").length = 18 from by decide]
    norm_num [concatOuterF, concatInner, List.foldl, qmax, BIGGEST_ALLOWED_GAP]
  refine ⟨?_, ?_, by decide, hbr, by norm_num, ?_, ?_⟩
  · rw [best_span_eval]
    decide
  · rw [matched_total_eval]
    decide
  · rw [is_valid_subset, if_neg (by decide), hbr]
    simp only [SIMILARITY_THRESHOLD, decide_eq_true_eq]
    norm_num
  · rw [matched_total_eval]
    decide

end Dispro
